import Mathlib

/-!
Verification of the NodeModal component (`src/features/modals/NodeModal/index.tsx`):
the node-content normalizer `normalizeNodeData`, the path renderer
`jsonPathToString`, the document updater `updateJsonAtPath`, and the
save/cancel handlers, embedded shallowly.

Modelling conventions:
* JavaScript/JSON values are modelled by `JValue`.  Numbers are restricted to
  integers (`Int`): the claims under verification do not involve fractional or
  exponent-form numerals, and floats are outside the embedding.
* Objects are association lists in insertion order.  (JavaScript additionally
  sorts integer-like keys numerically ahead of string keys; none of the claims
  depends on that serialization order, and the model keeps plain insertion
  order.)
* `JSON.parse` is modelled by `parseJson`, a fuel-based recursive-descent
  parser over the character list; `JSON.stringify(v, null, 2)` by
  `jsonStringify`, also fuel-based so that both evaluate by kernel reduction.
* Property access `base[key]` is modelled by `jsGetKey`, and property
  assignment `base[key] = v` by `jsAssignKey`, after the JavaScript coercion
  of a number segment to its decimal string (`segToKey`).  Exotic accesses
  (string indexing, methods such as `.length`) are not modelled and behave as
  absent properties; in the updater every such access leads to the same thrown
  error as in JavaScript, where the subsequent access or assignment on
  `undefined` (or on a primitive, in strict mode) throws a `TypeError`.
-/

/-- A JSON/JavaScript data value (numbers restricted to integers). -/
inductive JValue where
  | null
  | bool (b : Bool)
  | num (n : Int)
  | str (s : String)
  | arr (elems : List JValue)
  | obj (fields : List (String × JValue))
deriving Inhabited, Repr

/-- A path segment as it appears in `NodeData["path"]`: a string key or a
numeric index (`string | number` in the source). -/
inductive JSeg where
  | str (s : String)
  | num (n : Int)
deriving Inhabited, Repr, DecidableEq

/-- One row of `NodeData["text"]`: `\x7bkey?, value, type\x7d`. -/
structure Row where
  key : Option String
  value : JValue
  type : String
deriving Inhabited, Repr

/-! ### Characters and small string utilities -/

/-- The left-brace character. -/
def lbrace : Char := Char.ofNat 123

/-- The right-brace character. -/
def rbrace : Char := Char.ofNat 125

/-- JSON whitespace. -/
def isJsonWs (c : Char) : Bool := c = ' ' || c = '\t' || c = '\n' || c = '\r'

/-- Drop leading JSON whitespace. -/
def skipWs : List Char → List Char
  | [] => []
  | c :: cs => if isJsonWs c then skipWs cs else c :: cs

/-- `Array.prototype.join(sep)` on a list of strings. -/
def joinSep (sep : String) : List String → String
  | [] => ""
  | [a] => a
  | a :: rest => a ++ sep ++ joinSep sep rest

/-- JavaScript property creation/overwrite on an object modelled as an
association list: an existing key keeps its position and gets the new value;
a new key is appended.  This is exactly `o[k] = v` on a plain object. -/
def objInsert : List (String × JValue) → String → JValue → List (String × JValue)
  | [], k, v => [(k, v)]
  | (k', v') :: rest, k, v =>
    if k' = k then (k, v) :: rest else (k', v') :: objInsert rest k v

/-! ### A model of `JSON.parse` -/

/-- Split off a leading run of decimal digits. -/
def takeDigits : List Char → List Char × List Char
  | [] => ([], [])
  | c :: cs =>
    if c.isDigit then
      let (ds, r) := takeDigits cs
      (c :: ds, r)
    else ([], c :: cs)

/-- Numeric value of a digit run. -/
def digitsToNat (ds : List Char) : Nat :=
  ds.foldl (fun acc c => acc * 10 + (c.toNat - 48)) 0

/-- Parse a JSON unsigned integer numeral (`0` or a nonzero-leading digit
run), rejecting leading zeros as `JSON.parse` does. -/
def parseNat (cs : List Char) : Option (Nat × List Char) :=
  match takeDigits cs with
  | ([], _) => none
  | ([d], rest) => some (d.toNat - 48, rest)
  | (d :: ds, rest) =>
    if d = '0' then none
    else some (digitsToNat (d :: ds), rest)

/-- Hexadecimal digit value. -/
def hexVal (c : Char) : Option Nat :=
  if c.isDigit then some (c.toNat - 48)
  else if 'a' ≤ c && c ≤ 'f' then some (c.toNat - 87)
  else if 'A' ≤ c && c ≤ 'F' then some (c.toNat - 55)
  else none

/-- Parse the body of a JSON string literal, after the opening quote.  Fuel is
structural so the definition evaluates by kernel reduction. -/
def parseStrBody (fuel : Nat) (acc : List Char) (cs : List Char) :
    Option (String × List Char) :=
  match fuel with
  | 0 => none
  | fuel + 1 =>
    match cs with
    | [] => none
    | c :: rest =>
      if c = '"' then some (String.mk acc.reverse, rest)
      else if c = '\\' then
        match rest with
        | [] => none
        | e :: rest2 =>
          if e = '"' then parseStrBody fuel ('"' :: acc) rest2
          else if e = '\\' then parseStrBody fuel ('\\' :: acc) rest2
          else if e = '/' then parseStrBody fuel ('/' :: acc) rest2
          else if e = 'n' then parseStrBody fuel ('\n' :: acc) rest2
          else if e = 'r' then parseStrBody fuel ('\r' :: acc) rest2
          else if e = 't' then parseStrBody fuel ('\t' :: acc) rest2
          else if e = 'b' then parseStrBody fuel (Char.ofNat 8 :: acc) rest2
          else if e = 'f' then parseStrBody fuel (Char.ofNat 12 :: acc) rest2
          else if e = 'u' then
            match rest2 with
            | h1 :: h2 :: h3 :: h4 :: rest3 =>
              match hexVal h1, hexVal h2, hexVal h3, hexVal h4 with
              | some a, some b, some c3, some d =>
                parseStrBody fuel
                  (Char.ofNat (((a * 16 + b) * 16 + c3) * 16 + d) :: acc) rest3
              | _, _, _, _ => none
            | _ => none
          else none
      else if c.toNat < 32 then none
      else parseStrBody fuel (c :: acc) rest

mutual

/-- Parse one JSON value (after optional leading whitespace). -/
def parseVal (fuel : Nat) (cs0 : List Char) : Option (JValue × List Char) :=
  match fuel with
  | 0 => none
  | fuel + 1 =>
    match skipWs cs0 with
    | [] => none
    | c :: rest =>
      if c = '"' then
        match parseStrBody (rest.length + 1) [] rest with
        | some (s, r) => some (.str s, r)
        | none => none
      else if c = '[' then
        match skipWs rest with
        | ']' :: r2 => some (.arr [], r2)
        | cs1 => match parseArrItems fuel cs1 with
          | some (xs, r2) => some (.arr xs, r2)
          | none => none
      else if c = lbrace then
        match skipWs rest with
        | [] => none
        | c2 :: r2 =>
          if c2 = rbrace then some (.obj [], r2)
          else match parseObjItems fuel [] (c2 :: r2) with
            | some (fs, r3) => some (.obj fs, r3)
            | none => none
      else if c = 'n' then
        match rest with
        | 'u' :: 'l' :: 'l' :: r => some (.null, r)
        | _ => none
      else if c = 't' then
        match rest with
        | 'r' :: 'u' :: 'e' :: r => some (.bool true, r)
        | _ => none
      else if c = 'f' then
        match rest with
        | 'a' :: 'l' :: 's' :: 'e' :: r => some (.bool false, r)
        | _ => none
      else if c = '-' then
        match parseNat rest with
        | some (n, r) => some (.num (-(n : Int)), r)
        | none => none
      else if c.isDigit then
        match parseNat (c :: rest) with
        | some (n, r) => some (.num (n : Int), r)
        | none => none
      else none

/-- Parse the items of a non-empty array, up to and including `]`. -/
def parseArrItems (fuel : Nat) (cs : List Char) :
    Option (List JValue × List Char) :=
  match fuel with
  | 0 => none
  | fuel + 1 =>
    match parseVal fuel cs with
    | none => none
    | some (v, r) =>
      match skipWs r with
      | ',' :: r2 =>
        match parseArrItems fuel r2 with
        | some (xs, r3) => some (v :: xs, r3)
        | none => none
      | ']' :: r2 => some ([v], r2)
      | _ => none

/-- Parse the members of a non-empty object, up to and including the closing
brace, accumulating with `objInsert` so that duplicate keys behave as repeated
assignments (first position, last value), as in `JSON.parse`. -/
def parseObjItems (fuel : Nat) (acc : List (String × JValue)) (cs : List Char) :
    Option (List (String × JValue) × List Char) :=
  match fuel with
  | 0 => none
  | fuel + 1 =>
    match skipWs cs with
    | [] => none
    | c :: rest =>
      if c = '"' then
        match parseStrBody (rest.length + 1) [] rest with
        | none => none
        | some (k, r1) =>
          match skipWs r1 with
          | ':' :: r2 =>
            match parseVal fuel r2 with
            | none => none
            | some (v, r3) =>
              match skipWs r3 with
              | [] => none
              | c2 :: r4 =>
                if c2 = ',' then parseObjItems fuel (objInsert acc k v) r4
                else if c2 = rbrace then some (objInsert acc k v, r4)
                else none
          | _ => none
      else none

end

/-- Model of `JSON.parse`: parse a whole document, allowing surrounding
whitespace only. -/
def parseJson (s : String) : Option JValue :=
  match parseVal (2 * s.length + 2) s.data with
  | some (v, rest) => if skipWs rest = [] then some v else none
  | none => none

/-! ### A model of `JSON.stringify(v, null, 2)` -/

/-- Lowercase hexadecimal digit. -/
def hexDigit (n : Nat) : String :=
  String.mk [if n < 10 then Char.ofNat (48 + n) else Char.ofNat (87 + n)]

/-- JSON escaping of one character, as `JSON.stringify` performs it. -/
def jsonEscapeChar (c : Char) : String :=
  if c = '"' then "\\\""
  else if c = '\\' then "\\\\"
  else if c = '\n' then "\\n"
  else if c = '\r' then "\\r"
  else if c = '\t' then "\\t"
  else if c = Char.ofNat 8 then "\\b"
  else if c = Char.ofNat 12 then "\\f"
  else if c.toNat < 32 then
    "\\u00" ++ hexDigit (c.toNat / 16) ++ hexDigit (c.toNat % 16)
  else String.mk [c]

/-- A JSON string literal for `s`. -/
def jsonQuote (s : String) : String :=
  "\"" ++ String.join (s.data.map jsonEscapeChar) ++ "\""

/-- Model of `JSON.stringify(v, null, 2)` at indentation `ind`, fuel-based so
it evaluates by kernel reduction.  Non-empty arrays and objects place each
item on its own line indented two further spaces, with `": "` after keys. -/
def jsonStringifyAux (fuel : Nat) (ind : String) (v : JValue) : String :=
  match fuel with
  | 0 => ""
  | fuel + 1 =>
    match v with
    | .null => "null"
    | .bool b => if b then "true" else "false"
    | .num n => toString n
    | .str s => jsonQuote s
    | .arr [] => "[]"
    | .arr xs =>
      "[\n" ++
        joinSep ",\n"
          (xs.map (fun x => ind ++ "  " ++ jsonStringifyAux fuel (ind ++ "  ") x)) ++
        "\n" ++ ind ++ "]"
    | .obj [] => "\x7b\x7d"
    | .obj fs =>
      "\x7b\n" ++
        joinSep ",\n"
          (fs.map (fun kv =>
            ind ++ "  " ++ jsonQuote kv.1 ++ ": " ++
              jsonStringifyAux fuel (ind ++ "  ") kv.2)) ++
        "\n" ++ ind ++ "\x7d"

mutual

/-- Nesting depth of a value, used only to provide sufficient fuel. -/
def jdepth : JValue → Nat
  | .arr xs => 1 + jdepthL xs
  | .obj fs => 1 + jdepthO fs
  | _ => 0

/-- Greatest depth among array elements. -/
def jdepthL : List JValue → Nat
  | [] => 0
  | x :: xs => max (jdepth x) (jdepthL xs)

/-- Greatest depth among object field values. -/
def jdepthO : List (String × JValue) → Nat
  | [] => 0
  | kv :: fs => max (jdepth kv.2) (jdepthO fs)

end

/-- Model of `JSON.stringify(v, null, 2)`. -/
def jsonStringify (v : JValue) : String :=
  jsonStringifyAux (jdepth v + 1) "" v

/-! ### JavaScript property access and assignment on JSON data -/

/-- Coercion of a path segment to a JavaScript property key: property access
and assignment convert a number to its decimal string. -/
def segToKey : JSeg → String
  | .str s => s
  | .num n => toString n

/-- The canonical array index denoted by a property key, if any: JavaScript
treats the key `k` as an array index exactly when `k` is the canonical decimal
representation of a natural number (the 2^32 - 1 upper bound on JavaScript
array indices is not modelled). -/
def natIdx (k : String) : Option Nat :=
  if k.data ≠ [] ∧ k.data.all Char.isDigit then
    let n := digitsToNat k.data
    if toString n = k then some n else none
  else none

/-- Association-list lookup, first match. -/
def lookupKey : List (String × JValue) → String → Option JValue
  | [], _ => none
  | (k', v) :: rest, k => if k' = k then some v else lookupKey rest k

/-- Property read `base[k]` on JSON data: object field lookup, or array
element at a canonical index.  Absent properties, and any read on a
primitive, yield `none` (JavaScript `undefined`; for `null` the read itself
throws, which the updater below also turns into its single error). -/
def jsGetKey : JValue → String → Option JValue
  | .obj fs, k => lookupKey fs k
  | .arr xs, k =>
    match natIdx k with
    | some n => xs[n]?
    | none => none
  | _, _ => none

/-- Property write `base[k] = v`, in strict mode.  On an object it inserts or
overwrites the field; on an array a canonical in-bounds index overwrites, an
index past the end extends the array with `null` holes (as `JSON.stringify`
renders them), and a non-index key becomes a property invisible to
`JSON.stringify`, leaving the serialized data unchanged.  On `null` or a
primitive the write throws (`.error`). -/
def jsAssignKey : JValue → String → JValue → Except Unit JValue
  | .obj fs, k, v => .ok (.obj (objInsert fs k v))
  | .arr xs, k, v =>
    match natIdx k with
    | some n =>
      if n < xs.length then .ok (.arr (xs.set n v))
      else .ok (.arr (xs ++ List.replicate (n - xs.length) .null ++ [v]))
    | none => .ok (.arr xs)
  | _, _, _ => .error ()

/-- Replacement of an existing child, used when rebuilding the ancestors of a
mutated node; callers only use it where the child was successfully read, so
the assignment cannot fail. -/
def jsReplaceKey (d : JValue) (k : String) (c : JValue) : JValue :=
  match jsAssignKey d k c with
  | .ok d' => d'
  | .error _ => d

/-- The navigation loop `for (i = 0; i < path.length - 1; i++) current =
current[path[i]]`, keeping the list of (ancestor, key) pairs traversed so the
in-place mutation of `current` can be reflected back into the root value.  A
read that yields `undefined` makes the next read or the final assignment
throw, so it is an error here. -/
def navigate (cur : JValue) : List String → List (JValue × String) →
    Except Unit (JValue × List (JValue × String))
  | [], ctx => .ok (cur, ctx)
  | k :: rest, ctx =>
    match jsGetKey cur k with
    | some child => navigate child rest ((cur, k) :: ctx)
    | none => .error ()

/-- Reflect a mutated node back through the traversed ancestors.  Because
`JSON.parse` returns a tree without sharing, mutating `current` in place and
then serializing the root is the same as rebuilding each ancestor with the
updated child. -/
def rebuild : List (JValue × String) → JValue → JValue
  | [], v => v
  | (p, k) :: ctx, v => rebuild ctx (jsReplaceKey p k v)

/-! ### The source functions -/

/-- The single error message thrown by `updateJsonAtPath`. -/
def updateErrMsg : String := "Failed to update JSON. Please check your input."

/-- The inner `try \x7b parsedValue = JSON.parse(newValue) \x7d catch \x7b
parsedValue = newValue \x7d`: parse the edited text as JSON, falling back to
the raw string. -/
def parseOrRaw (newValue : String) : JValue :=
  match parseJson newValue with
  | some v => v
  | none => .str newValue

/-- `updateJsonAtPath(json, path, newValue)`: parse the document, parse the
new value (with raw-string fallback), replace the root when the path is
absent or empty, otherwise walk to the parent of the target, assign the final
key there, and re-serialize the whole document; any failure collapses to the
single thrown error. -/
def updateJsonAtPath (json : String) (path : Option (List JSeg))
    (newValue : String) : Except String String :=
  match parseJson json with
  | none => .error updateErrMsg
  | some parsedJson =>
    let parsedValue := parseOrRaw newValue
    match path with
    | none => .ok (jsonStringify parsedValue)
    | some p =>
      if p.length = 0 then .ok (jsonStringify parsedValue)
      else
        let keys := p.map segToKey
        match navigate parsedJson keys.dropLast [] with
        | .error _ => .error updateErrMsg
        | .ok (parent, ctx) =>
          match jsAssignKey parent (keys.getLastD "") parsedValue with
          | .error _ => .error updateErrMsg
          | .ok parent' => .ok (jsonStringify (rebuild ctx parent'))

/-- JavaScript truthiness of the optional `row.key` (`!row.key` is true for a
missing key and for the empty string). -/
def keyTruthy : Option String → Bool
  | none => false
  | some s => !s.isEmpty

/-- Whether a row is an `"array"` or `"object"` container row. -/
def isContainerRow (r : Row) : Bool := r.type = "array" || r.type = "object"

/-- Template-literal conversion `s = String(v)` as used in `\x60$\x7bvalue\x7d\x60`
(fuel-based; array elements join with commas, nulls in arrays print empty, an
object prints as `[object Object]`). -/
def jsTemplateAux (fuel : Nat) (v : JValue) : String :=
  match fuel with
  | 0 => ""
  | fuel + 1 =>
    match v with
    | .null => "null"
    | .bool b => if b then "true" else "false"
    | .num n => toString n
    | .str s => s
    | .arr xs =>
      joinSep ","
        (xs.map (fun x => match x with
          | .null => ""
          | y => jsTemplateAux fuel y))
    | .obj _ => "[object Object]"

/-- Template-literal conversion of a value to a string. -/
def jsTemplate (v : JValue) : String := jsTemplateAux (jdepth v + 1) v

/-- `normalizeNodeData(nodeRows)`: `"\x7b\x7d"` for a missing or empty row list, the
template rendering of the single value when the only row has a falsy key, and
otherwise the 2-space `JSON.stringify` of the object collecting `key: value`
from every row that is not a container row and has a truthy key. -/
def normalizeNodeData (nodeRows : Option (List Row)) : String :=
  match nodeRows with
  | none => "\x7b\x7d"
  | some rows =>
    if rows.length = 0 then "\x7b\x7d"
    else if rows.length = 1 ∧ keyTruthy (rows.headD default).key = false then
      jsTemplate (rows.headD default).value
    else
      jsonStringify (.obj (rows.foldl (fun acc row =>
        if !isContainerRow row && keyTruthy row.key then
          objInsert acc (row.key.getD "") row.value
        else acc) []))

/-- Rendering of one path segment inside brackets: numbers bare (the join
stringifies them), strings wrapped in double quotes by the template literal. -/
def pathSegString : JSeg → String
  | .num n => toString n
  | .str s => "\"" ++ s ++ "\""

/-- `jsonPathToString(path)`: `"$"` for a missing or empty path, otherwise
`$[..][..]` with the segments joined by `][`. -/
def jsonPathToString (path : Option (List JSeg)) : String :=
  match path with
  | none => "$"
  | some p =>
    if p.length = 0 then "$"
    else "$[" ++ joinSep "][" (p.map pathSegString) ++ "]"

/-! ### The component state and handlers -/

/-- The modal's local React state: `isEditing`, `editValue`, `originalValue`. -/
structure ModalState where
  isEditing : Bool
  editValue : String
  originalValue : String
deriving Repr, DecidableEq

/-- The external stores the component writes: the JSON store (`getJson` /
`setJson`) and the file store (`setContents(\x7bcontents, hasChanges\x7d)`). -/
structure StoreState where
  json : String
  fileContents : String
  fileHasChanges : Bool
deriving Repr, DecidableEq

/-- A toast notification shown by the save handler. -/
inductive ToastMsg where
  | success (msg : String)
  | error (msg : String)
deriving Repr, DecidableEq

/-- The `handleEdit` click handler: enter edit mode. -/
def handleEdit (st : ModalState) : ModalState :=
  { st with isEditing := true }

/-- The `handleCancel` click handler: restore `editValue` from
`originalValue` and leave edit mode. -/
def handleCancel (st : ModalState) : ModalState :=
  { st with editValue := st.originalValue, isEditing := false }

/-- The `handleSave` click handler: read the JSON store, run
`updateJsonAtPath` on it with the edited text; on success write the updated
string to the file store (with `hasChanges: true`) and to the JSON store,
record the edited text as `originalValue`, leave edit mode, and toast
success; on a thrown error leave every piece of state as it was and toast the
error message. -/
def handleSave (path : Option (List JSeg)) (st : ModalState)
    (stores : StoreState) : ModalState × StoreState × ToastMsg :=
  match updateJsonAtPath stores.json path st.editValue with
  | .ok updatedJson =>
    ({ st with originalValue := st.editValue, isEditing := false },
     { json := updatedJson, fileContents := updatedJson,
       fileHasChanges := true },
     .success "Node value updated successfully!")
  | .error msg => (st, stores, .error msg)

/-- The `React.useEffect` body that runs when the modal opens on a node:
both `originalValue` and `editValue` become the normalized node data (the
source passes `nodeData.text ?? []`), and edit mode is off. -/
def modalOpenEffect (nodeText : Option (List Row)) : ModalState :=
  let normalized := normalizeNodeData (some (nodeText.getD []))
  { isEditing := false, editValue := normalized, originalValue := normalized }

/-- A user interaction while the modal is open that is not save or cancel:
clicking Edit, or typing in the textarea. -/
inductive EditAction where
  | startEditing
  | changeText (s : String)

/-- Apply one interaction to the modal state. -/
def applyEdit (st : ModalState) : EditAction → ModalState
  | .startEditing => handleEdit st
  | .changeText s => { st with editValue := s }

/-- Apply a sequence of interactions to the modal state. -/
def applyEdits (st : ModalState) (es : List EditAction) : ModalState :=
  es.foldl applyEdit st

/-! ### Declarative descriptions of navigation and update -/

/-- Read the value at a key path. -/
def getK (d : JValue) : List String → Option JValue
  | [] => some d
  | k :: rest =>
    match jsGetKey d k with
    | some c => getK c rest
    | none => none

/-- Recursive description of "assign `v` at key path `ks` inside `d`": the
whole-document replacement for the empty path, a single property write for a
one-key path, and otherwise a rebuild of the first child along the rest of
the path. -/
def setK (d : JValue) : List String → JValue → Except Unit JValue
  | [], v => .ok v
  | k :: rest, v =>
    if rest.isEmpty then jsAssignKey d k v
    else
      match jsGetKey d k with
      | none => .error ()
      | some c =>
        match setK c rest v with
        | .ok c' => .ok (jsReplaceKey d k c')
        | .error e => .error e

/-- The key path named by the optional segment path. -/
def pathKeys : Option (List JSeg) → List String
  | none => []
  | some p => p.map segToKey

/-- `p` leads into `q`: `q` starts with `p`. -/
def listLeads (p q : List String) : Prop := ∃ r, p ++ r = q

/-! ### Elementary lemmas -/

theorem applyEdits_originalValue (st : ModalState) (es : List EditAction) :
    (applyEdits st es).originalValue = st.originalValue := by
  induction es generalizing st with
  | nil => rfl
  | cons e es ih =>
    cases e with
    | startEditing => simpa [applyEdits, List.foldl, applyEdit, handleEdit] using ih _
    | changeText s => simpa [applyEdits, List.foldl, applyEdit] using ih _

theorem joinSep_bracket_wrap (l : List String) (h : l ≠ []) :
    "[" ++ joinSep "][" l ++ "]" =
      (l.map (fun s => "[" ++ s ++ "]")).foldr (· ++ ·) "" := by
  induction l with
  | nil => exact absurd rfl h
  | cons a rest ih =>
    cases rest with
    | nil => simp [joinSep]
    | cons b t =>
      have hr : (b :: t : List String) ≠ [] := by simp
      have hih := ih hr
      rw [show (List.map (fun s => "[" ++ s ++ "]") (a :: b :: t)) =
            ("[" ++ a ++ "]") :: List.map (fun s => "[" ++ s ++ "]") (b :: t)
          from rfl,
        List.foldr_cons, ← hih]
      show "[" ++ (a ++ "][" ++ joinSep "][" (b :: t)) ++ "]" = _
      have hsplit : ∀ W : String, "][" ++ W = "]" ++ ("[" ++ W) := by
        intro W
        rw [← String.append_assoc]
        rfl
      simp [String.append_assoc, hsplit]

/-! ### Claims about display normalization and path rendering -/

/-- Claim C6: `normalizeNodeData` applied to an empty row list returns the
string `"\x7b\x7d"` (and likewise for a missing row list). -/
theorem c6_normalize_empty_rows :
    normalizeNodeData (some []) = "\x7b\x7d" ∧ normalizeNodeData none = "\x7b\x7d" :=
  ⟨rfl, rfl⟩

/-- Claim C7: for a row list containing exactly one row whose key is falsy
(absent, or the empty string), `normalizeNodeData` returns the template-string
rendering of that row's raw value. -/
theorem c7_normalize_single_keyless (r : Row) (h : keyTruthy r.key = false) :
    normalizeNodeData (some [r]) = jsTemplate r.value := by
  simp [normalizeNodeData, h]

/-- Claim C7 witness: a single keyless string row normalizes to the raw
string itself. -/
theorem c7_normalize_single_keyless_witness :
    keyTruthy (Row.mk none (JValue.str "hello") "string").key = false ∧
      normalizeNodeData (some [Row.mk none (JValue.str "hello") "string"]) =
        "hello" := by
  have h : keyTruthy (Row.mk none (JValue.str "hello") "string").key = false := rfl
  refine ⟨h, ?_⟩
  rw [c7_normalize_single_keyless _ h]
  exact rfl

/-- Claim C8: `jsonPathToString` renders the missing and the empty path as
`$`, renders every path by wrapping each segment in brackets after a leading
`$` (strings double-quoted, numbers bare), and in particular renders the path
`["a", 0]` as `$["a"][0]`. -/
theorem c8_jsonPathToString_spec :
    jsonPathToString none = "$" ∧
    jsonPathToString (some []) = "$" ∧
    (∀ p : List JSeg, jsonPathToString (some p) =
      "$" ++ ((p.map pathSegString).map (fun s => "[" ++ s ++ "]")).foldr
        (· ++ ·) "") ∧
    jsonPathToString (some [JSeg.str "a", JSeg.num 0]) = "$[\"a\"][0]" := by
  refine ⟨rfl, rfl, ?_, rfl⟩
  intro p
  cases p with
  | nil => rfl
  | cons a t =>
    have hmap : (List.map pathSegString (a :: t)) ≠ [] := by simp
    have h := joinSep_bracket_wrap _ hmap
    show "$[" ++ joinSep "][" (List.map pathSegString (a :: t)) ++ "]" = _
    rw [← h, show "$[" = "$" ++ "[" from rfl,
      String.append_assoc "$" "[" (joinSep "][" (List.map pathSegString (a :: t))),
      String.append_assoc]

/-- Claim C9: cancelling after any sequence of editing interactions restores
the displayed value to `originalValue` and exits edit mode; `originalValue`
is the normalized node data at modal open, and a successful save makes it the
saved edit text while a failed save leaves the state untouched. -/
theorem c9_cancel_restores_last_saved :
    (∀ (st : ModalState) (es : List EditAction),
      handleCancel (applyEdits st es) =
        ModalState.mk false st.originalValue st.originalValue) ∧
    (∀ nodeText : Option (List Row),
      modalOpenEffect nodeText =
        ModalState.mk false (normalizeNodeData (some (nodeText.getD [])))
          (normalizeNodeData (some (nodeText.getD [])))) ∧
    (∀ (path : Option (List JSeg)) (st : ModalState) (stores : StoreState),
      ((handleSave path st stores).1).originalValue = st.editValue ∨
        (handleSave path st stores).1 = st) := by
  refine ⟨?_, ?_, ?_⟩
  · intro st es
    have h := applyEdits_originalValue st es
    simp [handleCancel, h]
  · intro nodeText
    rfl
  · intro path st stores
    cases h : updateJsonAtPath stores.json path st.editValue with
    | ok u => left; simp [handleSave, h]
    | error m => right; simp [handleSave, h]

/-! ### The navigate-and-mutate loop agrees with the recursive description -/

theorem navigate_ctx (ks : List String) (d : JValue)
    (ctx : List (JValue × String)) :
    navigate d ks ctx =
      match navigate d ks [] with
      | .error e => .error e
      | .ok pc => .ok (pc.1, pc.2 ++ ctx) := by
  induction ks generalizing d ctx with
  | nil => rfl
  | cons k rest ih =>
    cases hget : jsGetKey d k with
    | none => simp [navigate, hget]
    | some c =>
      simp only [navigate, hget]
      rw [ih c ((d, k) :: ctx), ih c [(d, k)]]
      cases navigate c rest [] with
      | error e => rfl
      | ok pc => simp

theorem rebuild_append (c1 c2 : List (JValue × String)) (v : JValue) :
    rebuild (c1 ++ c2) v = rebuild c2 (rebuild c1 v) := by
  induction c1 generalizing v with
  | nil => rfl
  | cons p c1 ih =>
    cases p with
    | mk q k => simp [rebuild, ih]

theorem navigate_assign_eq (ks : List String) (kL : String) (d v : JValue) :
    (match navigate d ks [] with
     | .error _ => (Except.error () : Except Unit JValue)
     | .ok pc =>
       match jsAssignKey pc.1 kL v with
       | .error _ => .error ()
       | .ok parent' => .ok (rebuild pc.2 parent')) =
      setK d (ks ++ [kL]) v := by
  induction ks generalizing d with
  | nil =>
    have h1 : setK d ([] ++ [kL]) v = jsAssignKey d kL v := by simp [setK]
    rw [h1]
    show (match jsAssignKey d kL v with
      | .error _ => (Except.error () : Except Unit JValue)
      | .ok parent' => .ok (rebuild [] parent')) = jsAssignKey d kL v
    cases hass : jsAssignKey d kL v with
    | error e => cases e; rfl
    | ok p' => rfl
  | cons k rest ih =>
    have hne : (rest ++ [kL]).isEmpty = false := by simp
    cases hget : jsGetKey d k with
    | none =>
      simp [navigate, hget, setK, hne]
    | some c =>
      have hsetK : setK d ((k :: rest) ++ [kL]) v =
          (match setK c (rest ++ [kL]) v with
           | .ok c' => .ok (jsReplaceKey d k c')
           | .error e => .error e) := by
        simp [setK, hne, hget]
      rw [hsetK, ← ih c]
      simp only [navigate, hget]
      rw [navigate_ctx rest c [(d, k)]]
      cases hnav : navigate c rest [] with
      | error e => cases e; rfl
      | ok pc =>
        cases hass : jsAssignKey pc.1 kL v with
        | error e => simp [hass]
        | ok p' =>
          simp [hass, rebuild_append, rebuild]

theorem updateJson_eq_setK (json : String) (path : Option (List JSeg))
    (nv : String) (d : JValue) (hd : parseJson json = some d) :
    updateJsonAtPath json path nv =
      (match setK d (pathKeys path) (parseOrRaw nv) with
       | .ok d' => .ok (jsonStringify d')
       | .error _ => .error updateErrMsg) := by
  cases path with
  | none => simp [updateJsonAtPath, hd, pathKeys, setK]
  | some p =>
    cases p with
    | nil => simp [updateJsonAtPath, hd, pathKeys, setK]
    | cons a t =>
      have hne : ((a :: t).map segToKey) ≠ [] := by simp
      obtain ⟨ks, kL, hk⟩ : ∃ ks kL, (a :: t).map segToKey = ks ++ [kL] := by
        rcases List.eq_nil_or_concat ((a :: t).map segToKey) with h | ⟨ks, kL, h⟩
        · exact absurd h hne
        · exact ⟨ks, kL, by simpa [List.concat_eq_append] using h⟩
      simp only [updateJsonAtPath, hd, pathKeys]
      rw [if_neg (by simp)]
      rw [hk, List.dropLast_concat, List.getLastD_concat]
      rw [← navigate_assign_eq ks kL d (parseOrRaw nv)]
      cases hnav : navigate d ks [] with
      | error e => rfl
      | ok pc =>
        cases hass : jsAssignKey pc.1 kL (parseOrRaw nv) with
        | error e => simp [hass]
        | ok p' => simp [hass]

/-! ### Claims about the updater and the save handler -/

/-- Claim C3: the updater first attempts to JSON-parse the edited text; the
parsed value (or, on parse failure, the raw text as a string) is what gets
assigned at the path, and the whole document is then re-serialized. -/
theorem c3_parse_or_fallback_then_reserialize (json nv : String)
    (path : Option (List JSeg)) (d : JValue) (hd : parseJson json = some d) :
    updateJsonAtPath json path nv =
      (match setK d (pathKeys path)
        (match parseJson nv with
         | some v => v
         | none => JValue.str nv) with
       | .ok d' => .ok (jsonStringify d')
       | .error _ => .error updateErrMsg) :=
  updateJson_eq_setK json path nv d hd

/-- Claim C3 witness: replacing index 1 of `[0, 5]` with the parsed value of
`"7"` is the re-serialization of the recursively updated document. -/
theorem c3_parse_or_fallback_witness :
    parseJson "[0, 5]" = some (JValue.arr [JValue.num 0, JValue.num 5]) ∧
    updateJsonAtPath "[0, 5]" (some [JSeg.num 1]) "7" =
      (match setK (JValue.arr [JValue.num 0, JValue.num 5])
        (pathKeys (some [JSeg.num 1]))
        (match parseJson "7" with
         | some v => v
         | none => JValue.str "7") with
       | .ok d' => .ok (jsonStringify d')
       | .error _ => .error updateErrMsg) ∧
    updateJsonAtPath "[0, 5]" (some [JSeg.num 1]) "7" = .ok "[\n  0,\n  7\n]" :=
  ⟨rfl, c3_parse_or_fallback_then_reserialize "[0, 5]" "7" (some [JSeg.num 1])
    (JValue.arr [JValue.num 0, JValue.num 5]) rfl, rfl⟩

/-- Claim C1: when `updateJsonAtPath` throws, the save handler shows the
error toast and leaves the modal state, the JSON store and the file store
exactly as they were. -/
theorem c1_save_error_no_write (path : Option (List JSeg)) (st : ModalState)
    (stores : StoreState) (m : String)
    (h : updateJsonAtPath stores.json path st.editValue = .error m) :
    handleSave path st stores = (st, stores, ToastMsg.error m) := by
  simp [handleSave, h]

/-- Claim C1 witness: saving over an unparseable stored document errors and
writes nothing. -/
theorem c1_save_error_no_write_witness :
    updateJsonAtPath (StoreState.mk "" "" false).json none
        (ModalState.mk true "1" "x").editValue = .error updateErrMsg ∧
    handleSave none (ModalState.mk true "1" "x") (StoreState.mk "" "" false) =
      (ModalState.mk true "1" "x", StoreState.mk "" "" false,
        ToastMsg.error updateErrMsg) :=
  ⟨rfl, c1_save_error_no_write _ _ _ _ rfl⟩

/-- Claim C2: when the stored document is valid JSON and the edited text can
be applied at the node's path, saving writes the re-serialized document to
the file store with `hasChanges: true`, writes the same string to the JSON
store, records the edit as the new original value, leaves edit mode, and
shows the success toast; the written string is the serialization of the
recursively updated document. -/
theorem c2_save_success_updates_stores (path : Option (List JSeg))
    (st : ModalState) (stores : StoreState) (u : String) (d : JValue)
    (hd : parseJson stores.json = some d)
    (h : updateJsonAtPath stores.json path st.editValue = .ok u) :
    handleSave path st stores =
      (ModalState.mk false st.editValue st.editValue,
       StoreState.mk u u true,
       ToastMsg.success "Node value updated successfully!") ∧
    ∃ d', setK d (pathKeys path) (parseOrRaw st.editValue) = .ok d' ∧
      u = jsonStringify d' := by
  constructor
  · simp [handleSave, h]
  · have heq := updateJson_eq_setK stores.json path st.editValue d hd
    rw [h] at heq
    cases hset : setK d (pathKeys path) (parseOrRaw st.editValue) with
    | error e => rw [hset] at heq; exact absurd heq (by simp)
    | ok d' =>
      rw [hset] at heq
      refine ⟨d', rfl, ?_⟩
      simpa using heq

/-- Claim C2 witness: saving the edit `2` at path `["a"]` over the document
`\x7b"a": 1\x7d` writes the re-serialized document to both stores and toasts
success. -/
theorem c2_save_success_updates_stores_witness :
    parseJson (StoreState.mk "\x7b\"a\": 1\x7d" "" false).json =
      some (JValue.obj [("a", JValue.num 1)]) ∧
    updateJsonAtPath (StoreState.mk "\x7b\"a\": 1\x7d" "" false).json
        (some [JSeg.str "a"]) (ModalState.mk true "2" "x").editValue =
      .ok "\x7b\n  \"a\": 2\n\x7d" ∧
    (handleSave (some [JSeg.str "a"]) (ModalState.mk true "2" "x")
        (StoreState.mk "\x7b\"a\": 1\x7d" "" false) =
      (ModalState.mk false "2" "2",
       StoreState.mk "\x7b\n  \"a\": 2\n\x7d" "\x7b\n  \"a\": 2\n\x7d" true,
       ToastMsg.success "Node value updated successfully!") ∧
    ∃ d', setK (JValue.obj [("a", JValue.num 1)])
        (pathKeys (some [JSeg.str "a"]))
        (parseOrRaw (ModalState.mk true "2" "x").editValue) = .ok d' ∧
      "\x7b\n  \"a\": 2\n\x7d" = jsonStringify d') :=
  ⟨rfl, rfl, c2_save_success_updates_stores _ _ _ _ _ rfl rfl⟩

/-- Claim C4 counterexample: with an empty path the result is not independent
of the previous document: over the unparseable document `\x7b` the updater
throws instead of returning the serialized edited value, while over the
document `2` it succeeds. -/
theorem c4_counterexample_invalid_doc :
    updateJsonAtPath "\x7b" (some []) "1" = .error updateErrMsg ∧
    updateJsonAtPath "2" (some []) "1" = .ok "1" ∧
    updateJsonAtPath "\x7b" (some []) "1" ≠ updateJsonAtPath "2" (some []) "1" := by
  refine ⟨rfl, rfl, ?_⟩
  intro h
  rw [show updateJsonAtPath "\x7b" (some []) "1" = Except.error updateErrMsg
      from rfl,
    show updateJsonAtPath "2" (some []) "1" = (Except.ok "1" : Except String String)
      from rfl] at h
  exact Except.noConfusion h

/-- Claim C4 (amended): for every document string that parses as JSON, an
absent or empty path makes the updater replace the whole document: the result
is the serialization of the parsed-or-raw edited value alone, independent of
the parsed document's content. -/
theorem c4_empty_path_replaces_root (json nv : String)
    (path : Option (List JSeg)) (d : JValue) (hd : parseJson json = some d)
    (hp : path = none ∨ path = some []) :
    updateJsonAtPath json path nv = .ok (jsonStringify (parseOrRaw nv)) := by
  rcases hp with rfl | rfl <;> simp [updateJsonAtPath, hd]

/-- Claim C4 witness: over the document `[true]` an empty path replaces the
root with the raw-string fallback of an unparseable edit. -/
theorem c4_empty_path_replaces_root_witness :
    parseJson "[true]" = some (JValue.arr [JValue.bool true]) ∧
    updateJsonAtPath "[true]" (some []) "not json" =
      .ok (jsonStringify (parseOrRaw "not json")) ∧
    jsonStringify (parseOrRaw "not json") = "\"not json\"" :=
  ⟨rfl, c4_empty_path_replaces_root "[true]" "not json" (some [])
    (JValue.arr [JValue.bool true]) rfl (Or.inr rfl), rfl⟩

/-! ### The row fold of `normalizeNodeData` -/

theorem objInsert_of_not_mem (acc : List (String × JValue)) (k : String)
    (v : JValue) (h : ∀ p ∈ acc, p.1 ≠ k) :
    objInsert acc k v = acc ++ [(k, v)] := by
  induction acc with
  | nil => rfl
  | cons p rest ih =>
    cases p with
    | mk k' v' =>
      have hne : k' ≠ k := h (k', v') (List.mem_cons_self _ _)
      simp [objInsert, hne, ih (fun q hq => h q (List.mem_cons_of_mem _ hq))]

theorem foldl_collect_eq (rows : List Row) (acc : List (String × JValue))
    (hdisj : ∀ r ∈ rows, (!isContainerRow r && keyTruthy r.key) = true →
      ∀ p ∈ acc, p.1 ≠ r.key.getD "")
    (hnd : ((rows.filter (fun r => !isContainerRow r && keyTruthy r.key)).map
      (fun r => r.key.getD "")).Nodup) :
    rows.foldl (fun acc row =>
      if !isContainerRow row && keyTruthy row.key then
        objInsert acc (row.key.getD "") row.value
      else acc) acc =
    acc ++ (rows.filter (fun r => !isContainerRow r && keyTruthy r.key)).map
      (fun r => (r.key.getD "", r.value)) := by
  induction rows generalizing acc with
  | nil => simp
  | cons r rest ih =>
    by_cases hc : (!isContainerRow r && keyTruthy r.key) = true
    · have hfresh : ∀ p ∈ acc, p.1 ≠ r.key.getD "" :=
        hdisj r (List.mem_cons_self _ _) hc
      have hnd' := hnd
      rw [List.filter_cons_of_pos (by exact hc)] at hnd'
      simp only [List.map_cons, List.nodup_cons] at hnd'
      have hrec := ih (acc ++ [(r.key.getD "", r.value)])
        (fun r' hr' hc' p hp => by
          rcases List.mem_append.mp hp with hin | hsing
          · exact hdisj r' (List.mem_cons_of_mem _ hr') hc' p hin
          · have hp1 : p.1 = r.key.getD "" := by
              rcases List.mem_singleton.mp hsing with rfl
              rfl
            rw [hp1]
            intro hcontra
            apply hnd'.1
            rw [hcontra]
            exact List.mem_map_of_mem _ (List.mem_filter.mpr ⟨hr', hc'⟩))
        hnd'.2
      simp only [List.foldl_cons, hc, if_true]
      rw [objInsert_of_not_mem acc _ _ hfresh, hrec]
      rw [List.filter_cons_of_pos (by exact hc)]
      simp [List.append_assoc]
    · have hc' : (!isContainerRow r && keyTruthy r.key) = false :=
        Bool.eq_false_iff.mpr hc
      simp only [List.foldl_cons]
      rw [show (if (!isContainerRow r && keyTruthy r.key) = true then
          objInsert acc (r.key.getD "") r.value else acc) = acc
        from if_neg hc]
      rw [List.filter_cons_of_neg (by simp [hc'])] at hnd ⊢
      exact ih acc (fun r' hr' => hdisj r' (List.mem_cons_of_mem _ hr')) hnd

/-- Claim C5: for a row list with two or more rows, or a single row with a
truthy key, in which every non-container row is keyed and those keys are
distinct, `normalizeNodeData` returns the 2-space JSON object string built
from exactly the non-container rows (type neither `"array"` nor `"object"`),
each contributing its key/value pair in order. -/
theorem c5_normalize_non_container_rows (rows : List Row)
    (h0 : rows ≠ [])
    (h1 : ∀ r, rows = [r] → keyTruthy r.key = true)
    (hkeys : ∀ r ∈ rows, isContainerRow r = false → keyTruthy r.key = true)
    (hnd : ((rows.filter (fun r => !isContainerRow r)).map
      (fun r => r.key.getD "")).Nodup) :
    normalizeNodeData (some rows) =
      jsonStringify (JValue.obj ((rows.filter (fun r => !isContainerRow r)).map
        (fun r => (r.key.getD "", r.value)))) := by
  have hfe : rows.filter (fun r => !isContainerRow r && keyTruthy r.key) =
      rows.filter (fun r => !isContainerRow r) := by
    apply List.filter_congr
    intro r hr
    cases hic : isContainerRow r with
    | true => simp [hic]
    | false => simp [hic, hkeys r hr hic]
  have hl0 : ¬ (rows.length = 0) := by
    simpa [List.length_eq_zero] using h0
  have hl1 : ¬ (rows.length = 1 ∧ keyTruthy (rows.headD default).key = false) := by
    rintro ⟨hlen, hkey⟩
    obtain ⟨r, rfl⟩ : ∃ r, rows = [r] := List.length_eq_one.mp hlen
    have htrue := h1 r rfl
    simp only [List.headD] at hkey
    rw [htrue] at hkey
    exact Bool.noConfusion hkey
  show (if rows.length = 0 then "\x7b\x7d"
    else if rows.length = 1 ∧ keyTruthy (rows.headD default).key = false then
      jsTemplate (rows.headD default).value
    else
      jsonStringify (.obj (rows.foldl (fun acc row =>
        if !isContainerRow row && keyTruthy row.key then
          objInsert acc (row.key.getD "") row.value
        else acc) []))) = _
  rw [if_neg hl0, if_neg hl1]
  rw [foldl_collect_eq rows [] (by simp) (by rw [hfe]; exact hnd)]
  rw [hfe]
  simp

/-- Claim C5 witness: two scalar keyed rows and one container row normalize
to the object string with exactly the two scalar pairs. -/
theorem c5_normalize_non_container_rows_witness :
    normalizeNodeData (some [Row.mk (some "a") (JValue.num 1) "number",
      Row.mk (some "b") (JValue.str "x") "string",
      Row.mk (some "c") (JValue.arr []) "array"]) =
      jsonStringify (JValue.obj
        ((([Row.mk (some "a") (JValue.num 1) "number",
          Row.mk (some "b") (JValue.str "x") "string",
          Row.mk (some "c") (JValue.arr []) "array"].filter
            (fun r => !isContainerRow r)).map
          (fun r => (r.key.getD "", r.value))))) ∧
    normalizeNodeData (some [Row.mk (some "a") (JValue.num 1) "number",
      Row.mk (some "b") (JValue.str "x") "string",
      Row.mk (some "c") (JValue.arr []) "array"]) =
      "\x7b\n  \"a\": 1,\n  \"b\": \"x\"\n\x7d" :=
  ⟨c5_normalize_non_container_rows _ (by simp) (fun r h => by simp at h)
    (by decide) (by decide), rfl⟩

/-! ### Reads after writes -/

theorem lookup_objInsert_self (fs : List (String × JValue)) (k : String)
    (v : JValue) : lookupKey (objInsert fs k v) k = some v := by
  induction fs with
  | nil => simp [objInsert, lookupKey]
  | cons p rest ih =>
    cases p with
    | mk k' v' =>
      by_cases h : k' = k
      · simp [objInsert, lookupKey, h]
      · simp [objInsert, lookupKey, h, ih]

theorem lookup_objInsert_ne (fs : List (String × JValue)) (k k' : String)
    (v : JValue) (h : k' ≠ k) :
    lookupKey (objInsert fs k v) k' = lookupKey fs k' := by
  have hks : ¬ k = k' := fun he => h he.symm
  induction fs with
  | nil => simp [objInsert, lookupKey, hks]
  | cons p rest ih =>
    cases p with
    | mk k0 v0 =>
      by_cases h0 : k0 = k
      · subst h0
        simp [objInsert, lookupKey, hks]
      · simp [objInsert, lookupKey, h0, ih]

theorem natIdx_toString (k : String) (n : Nat) (h : natIdx k = some n) :
    toString n = k := by
  simp only [natIdx] at h
  split_ifs at h with h1 h2
  · rw [Option.some.injEq] at h
    rw [← h]
    exact h2

theorem natIdx_inj (k k' : String) (n m : Nat) (hk : natIdx k = some n)
    (hk' : natIdx k' = some m) (hne : k' ≠ k) : m ≠ n := by
  intro he
  apply hne
  rw [← natIdx_toString k n hk, ← natIdx_toString k' m hk', he]

theorem jsGet_replace_self (d : JValue) (k : String) (c c' : JValue)
    (h : jsGetKey d k = some c) :
    jsGetKey (jsReplaceKey d k c') k = some c' := by
  cases d with
  | obj fs => simp [jsGetKey, jsReplaceKey, jsAssignKey, lookup_objInsert_self]
  | arr xs =>
    cases hidx : natIdx k with
    | none =>
      simp only [jsGetKey, hidx] at h
      exact Option.noConfusion h
    | some n =>
      simp only [jsGetKey, hidx] at h
      have hlt : n < xs.length := by
        by_contra hge
        rw [List.getElem?_eq_none (by omega)] at h
        exact Option.noConfusion h
      simp [jsReplaceKey, jsAssignKey, hidx, hlt, jsGetKey,
        List.getElem?_set_self (by simpa using hlt)]
  | null => simp [jsGetKey] at h
  | bool b => simp [jsGetKey] at h
  | num n => simp [jsGetKey] at h
  | str s => simp [jsGetKey] at h

theorem jsGet_replace_ne (d : JValue) (k k' : String) (c c' : JValue)
    (hne : k' ≠ k) (h : jsGetKey d k = some c) :
    jsGetKey (jsReplaceKey d k c') k' = jsGetKey d k' := by
  cases d with
  | obj fs =>
    simp [jsGetKey, jsReplaceKey, jsAssignKey, lookup_objInsert_ne fs k k' c' hne]
  | arr xs =>
    cases hidx : natIdx k with
    | none =>
      simp only [jsGetKey, hidx] at h
      exact Option.noConfusion h
    | some n =>
      simp only [jsGetKey, hidx] at h
      have hlt : n < xs.length := by
        by_contra hge
        rw [List.getElem?_eq_none (by omega)] at h
        exact Option.noConfusion h
      cases hidx' : natIdx k' with
      | none => simp [jsGetKey, jsReplaceKey, jsAssignKey, hidx, hlt, hidx']
      | some m =>
        have hmn : m ≠ n := natIdx_inj k k' n m hidx hidx' hne
        simp [jsGetKey, jsReplaceKey, jsAssignKey, hidx, hlt, hidx',
          List.getElem?_set_ne (fun he => hmn he.symm)]
  | null => simp [jsGetKey] at h
  | bool b => simp [jsGetKey] at h
  | num n => simp [jsGetKey] at h
  | str s => simp [jsGetKey] at h

/-! ### Frame lemmas for prefix paths ending in an object -/

theorem listLeads_nil (q : List String) : listLeads [] q := ⟨q, rfl⟩

theorem listLeads_cons_iff (k k' : String) (a b : List String) :
    listLeads (k :: a) (k' :: b) ↔ k = k' ∧ listLeads a b := by
  constructor
  · rintro ⟨r, h⟩
    rw [List.cons_append] at h
    injection h with h1 h2
    exact ⟨h1, r, h2⟩
  · rintro ⟨rfl, r, h⟩
    exact ⟨r, by rw [List.cons_append, h]⟩

theorem setK_frame_aux (ks : List String) (kL : String) (v : JValue) :
    ∀ (d : JValue) (fs : List (String × JValue)),
    getK d ks = some (.obj fs) →
    ∃ d', setK d (ks ++ [kL]) v = .ok d' ∧
      getK d' (ks ++ [kL]) = some v ∧
      ∀ q, ¬ listLeads (ks ++ [kL]) q → ¬ listLeads q (ks ++ [kL]) →
        getK d' q = getK d q := by
  induction ks with
  | nil =>
    intro d fs hget
    have hd : d = .obj fs := by simpa [getK] using hget
    subst hd
    refine ⟨.obj (objInsert fs kL v), ?_, ?_, ?_⟩
    · simp [setK, jsAssignKey]
    · simp [getK, jsGetKey, lookup_objInsert_self]
    · intro q hq1 hq2
      cases q with
      | nil => exact absurd (listLeads_nil _) hq2
      | cons k' q' =>
        have hk' : k' ≠ kL := by
          rintro rfl
          exact hq1 ((listLeads_cons_iff _ _ _ _).mpr ⟨rfl, listLeads_nil _⟩)
        have hlook := lookup_objInsert_ne fs kL k' v hk'
        simp [getK, jsGetKey, hlook]
  | cons k ks ih =>
    intro d fs hget
    have hsplit : ∃ c, jsGetKey d k = some c ∧ getK c ks = some (.obj fs) := by
      simp only [getK] at hget
      cases hg : jsGetKey d k with
      | none => rw [hg] at hget; exact Option.noConfusion hget
      | some c => rw [hg] at hget; exact ⟨c, rfl, hget⟩
    obtain ⟨c, hgc, hrec⟩ := hsplit
    obtain ⟨c', hset, hgetc', hframe⟩ := ih c fs hrec
    refine ⟨jsReplaceKey d k c', ?_, ?_, ?_⟩
    · have hne : (ks ++ [kL]).isEmpty = false := by simp
      rw [List.cons_append]
      simp [setK, hne, hgc, hset]
    · have hj := jsGet_replace_self d k c c' hgc
      rw [List.cons_append]
      simp only [getK, hj]
      exact hgetc'
    · intro q hq1 hq2
      rw [List.cons_append] at hq1 hq2
      cases q with
      | nil => exact absurd (listLeads_nil _) hq2
      | cons k' q' =>
        by_cases hkk : k' = k
        · subst hkk
          have hq1' : ¬ listLeads (ks ++ [kL]) q' := fun hl =>
            hq1 ((listLeads_cons_iff _ _ _ _).mpr ⟨rfl, hl⟩)
          have hq2' : ¬ listLeads q' (ks ++ [kL]) := fun hl =>
            hq2 ((listLeads_cons_iff _ _ _ _).mpr ⟨rfl, hl⟩)
          have hj := jsGet_replace_self d k' c c' hgc
          simp only [getK, hj, hgc]
          exact hframe q' hq1' hq2'
        · have hj := jsGet_replace_ne d k k' c c' hkk hgc
          simp only [getK, hj]

/-- Claim C10 counterexample: updating `\x7b"a": 1\x7d` at the non-empty path
`["a"]` (whose prefix resolves to the root object) changes the value readable
at the path `[]`, a path other than the target, in the re-parsed result: the
root value itself differs. -/
theorem c10_counterexample_root_changes :
    updateJsonAtPath "\x7b\"a\": 1\x7d" (some [JSeg.str "a"]) "2" =
      .ok "\x7b\n  \"a\": 2\n\x7d" ∧
    parseJson "\x7b\"a\": 1\x7d" = some (JValue.obj [("a", JValue.num 1)]) ∧
    parseJson "\x7b\n  \"a\": 2\n\x7d" = some (JValue.obj [("a", JValue.num 2)]) ∧
    ([] : List String) ≠ [segToKey (JSeg.str "a")] ∧
    getK (JValue.obj [("a", JValue.num 2)]) [] ≠
      getK (JValue.obj [("a", JValue.num 1)]) [] := by
  refine ⟨rfl, rfl, rfl, by simp, ?_⟩
  intro h
  simp only [getK, Option.some.injEq] at h
  have h2 := congrArg (fun v => getK v ["a"]) h
  simp [getK, jsGetKey, lookupKey] at h2

/-- Claim C10 (amended): for a valid document and a non-empty path whose
prefix (all key-coerced segments but the last) resolves to an object, the
update succeeds with the serialization of the recursively updated document,
the updated document reads the edited value at the target key path, and every
key path that neither extends the target key path nor is a prefix of it
(ancestors contain the changed subtree, and descendants read into the
replaced value) reads exactly what it read before. -/
theorem c10_update_frame (json nv : String) (p : List JSeg) (d : JValue)
    (fs : List (String × JValue))
    (hd : parseJson json = some d)
    (hp : p ≠ [])
    (hobj : getK d ((p.map segToKey).dropLast) = some (.obj fs)) :
    ∃ d', setK d (p.map segToKey) (parseOrRaw nv) = .ok d' ∧
      updateJsonAtPath json (some p) nv = .ok (jsonStringify d') ∧
      getK d' (p.map segToKey) = some (parseOrRaw nv) ∧
      ∀ q : List String, ¬ listLeads (p.map segToKey) q →
        ¬ listLeads q (p.map segToKey) → getK d' q = getK d q := by
  have hne : (p.map segToKey) ≠ [] := by simpa using hp
  obtain ⟨ks, kL, hk⟩ : ∃ ks kL, p.map segToKey = ks ++ [kL] := by
    rcases List.eq_nil_or_concat (p.map segToKey) with h | ⟨ks, kL, h⟩
    · exact absurd h hne
    · exact ⟨ks, kL, by simpa [List.concat_eq_append] using h⟩
  rw [hk, List.dropLast_concat] at hobj
  obtain ⟨d', h1, h2, h3⟩ := setK_frame_aux ks kL (parseOrRaw nv) d fs hobj
  rw [hk]
  refine ⟨d', h1, ?_, h2, h3⟩
  have heq := updateJson_eq_setK json (some p) nv d hd
  rw [show pathKeys (some p) = p.map segToKey from rfl, hk, h1] at heq
  simpa using heq

/-- Claim C10 witness: editing `["a", "b"]` inside
`\x7b"a": \x7b"b": 1\x7d, "c": 2\x7d` succeeds, places the parsed edit, and
leaves sibling paths unchanged. -/
theorem c10_update_frame_witness :
    parseJson "\x7b\"a\": \x7b\"b\": 1\x7d, \"c\": 2\x7d" =
      some (JValue.obj [("a", JValue.obj [("b", JValue.num 1)]),
        ("c", JValue.num 2)]) ∧
    ([JSeg.str "a", JSeg.str "b"] : List JSeg) ≠ [] ∧
    getK (JValue.obj [("a", JValue.obj [("b", JValue.num 1)]),
        ("c", JValue.num 2)])
      (([JSeg.str "a", JSeg.str "b"].map segToKey).dropLast) =
      some (.obj [("b", JValue.num 1)]) ∧
    (∃ d', setK (JValue.obj [("a", JValue.obj [("b", JValue.num 1)]),
        ("c", JValue.num 2)])
        ([JSeg.str "a", JSeg.str "b"].map segToKey) (parseOrRaw "5") = .ok d' ∧
      updateJsonAtPath "\x7b\"a\": \x7b\"b\": 1\x7d, \"c\": 2\x7d"
        (some [JSeg.str "a", JSeg.str "b"]) "5" = .ok (jsonStringify d') ∧
      getK d' ([JSeg.str "a", JSeg.str "b"].map segToKey) =
        some (parseOrRaw "5") ∧
      ∀ q : List String,
        ¬ listLeads ([JSeg.str "a", JSeg.str "b"].map segToKey) q →
        ¬ listLeads q ([JSeg.str "a", JSeg.str "b"].map segToKey) →
        getK d' q = getK (JValue.obj [("a", JValue.obj [("b", JValue.num 1)]),
          ("c", JValue.num 2)]) q) :=
  ⟨rfl, by simp, rfl,
    c10_update_frame "\x7b\"a\": \x7b\"b\": 1\x7d, \"c\": 2\x7d" "5"
      [JSeg.str "a", JSeg.str "b"]
      (JValue.obj [("a", JValue.obj [("b", JValue.num 1)]),
        ("c", JValue.num 2)])
      [("b", JValue.num 1)] rfl (by simp) rfl⟩
